import Mathlib

/-!
Verification of the PyGEM-notebooks analysis code.

The notebooks are glue over numpy / arviz / xarray.  We embed the numeric
reductions over `ℚ` (standing in for Python floats on exact inputs); a value
of type `Option ℚ` is `none` when the corresponding Python expression is NaN
or raises, both of which make the surrounding per-glacier computation fail.
External library routines whose source lives outside this repository
(`pygem.mcmc.effective_n`, `arviz.rhat`, and the numeric square root inside
`np.std`) enter the embedding as opaque parameters bundled in `ExternalLib`.
-/

namespace PyGEMNB

/-- Opaque upstream library functions used by the notebooks: the effective
sample size `pygem.mcmc.effective_n`, the Gelman-Rubin statistic `arviz.rhat`
applied to a chains-by-samples 2D array, and the square root used inside
`np.std`.  Their implementations live outside this repository. -/
structure ExternalLib where
  n_eff : List ℚ → Option ℚ
  rhat : List (List ℚ) → Option ℚ
  sqrt : ℚ → ℚ

/-! ### numpy reductions on 1-D arrays -/

/-- `np.min`: raises on an empty array, else the least element. -/
def npMin : List ℚ → Option ℚ
  | [] => none
  | x :: t => some (t.foldl min x)

/-- `np.max`: raises on an empty array, else the greatest element. -/
def npMax : List ℚ → Option ℚ
  | [] => none
  | x :: t => some (t.foldl max x)

/-- Sorted copy of the samples, as `np.median` and `np.percentile`
produce internally. -/
def sortedQ (xs : List ℚ) : List ℚ := List.insertionSort (fun a b => a ≤ b) xs

/-- `np.median` on a nonempty array: middle element of the sorted data for
odd length, average of the two middle elements for even length. -/
def npMedianD (xs : List ℚ) : ℚ :=
  if xs.length % 2 = 1 then (sortedQ xs).getD (xs.length / 2) 0
  else ((sortedQ xs).getD (xs.length / 2 - 1) 0 + (sortedQ xs).getD (xs.length / 2) 0) / 2

/-- `np.median`, `none` on an empty array (numpy yields NaN there). -/
def npMedian (xs : List ℚ) : Option ℚ := if xs = [] then none else some (npMedianD xs)

/-- Arithmetic mean `np.mean` of a nonempty array. -/
def meanD (xs : List ℚ) : ℚ := xs.sum / xs.length

/-- `np.mean`, `none` on an empty array (numpy yields NaN there). -/
def npMean (xs : List ℚ) : Option ℚ := if xs = [] then none else some (meanD xs)

/-- Population variance: mean of squared deviations from the mean, as inside
`np.std`. -/
def npVarD (xs : List ℚ) : ℚ := ((xs.map (fun a => (a - meanD xs) ^ 2)).sum) / xs.length

/-- `np.std` = square root of the population variance; the numeric square
root is an opaque parameter `sq`. -/
def npStd (sq : ℚ → ℚ) (xs : List ℚ) : Option ℚ :=
  if xs = [] then none else some (sq (npVarD xs))

/-- `np.percentile` with the default linear interpolation on a nonempty
array: position `h = q (n-1) / 100` in the sorted data, interpolated
between the neighbouring order statistics. -/
def npPercentileD (q : ℚ) (xs : List ℚ) : ℚ :=
  let s := sortedQ xs
  let h : ℚ := q * ((xs.length : ℚ) - 1) / 100
  let i : ℕ := (⌊h⌋).toNat
  if i + 1 < xs.length then s.getD i 0 + (h - (i : ℚ)) * (s.getD (i + 1) 0 - s.getD i 0)
  else s.getD i 0

/-- The interquartile range `np.percentile(x, 75) - np.percentile(x, 25)`
computed by the notebook's sixth statistic; `np.percentile` raises on an
empty array. -/
def npIqr (xs : List ℚ) : Option ℚ :=
  if xs = [] then none else some (npPercentileD 75 xs - npPercentileD 25 xs)

/-! ### Elementary facts about the reductions -/

theorem foldl_min_spec (x : ℚ) (t : List ℚ) :
    t.foldl min x ∈ x :: t ∧ ∀ a ∈ x :: t, t.foldl min x ≤ a := by
  induction t generalizing x with
  | nil => simp
  | cons y t ih =>
    obtain ⟨hmem, hle⟩ := ih (min x y)
    have hfold : (y :: t).foldl min x = t.foldl min (min x y) := rfl
    constructor
    · rw [hfold]
      rcases List.mem_cons.mp hmem with h | h
      · rcases min_choice x y with h' | h' <;> rw [h, h']
        · exact List.mem_cons_self _ _
        · exact List.mem_cons_of_mem _ (List.mem_cons_self _ _)
      · exact List.mem_cons_of_mem _ (List.mem_cons_of_mem _ h)
    · intro a ha
      rw [hfold]
      rcases List.mem_cons.mp ha with h | h
      · subst h
        exact le_trans (hle _ (List.mem_cons_self _ _)) (min_le_left _ _)
      · rcases List.mem_cons.mp h with h' | h'
        · subst h'
          exact le_trans (hle _ (List.mem_cons_self _ _)) (min_le_right _ _)
        · exact hle _ (List.mem_cons_of_mem _ h')

theorem foldl_max_spec (x : ℚ) (t : List ℚ) :
    t.foldl max x ∈ x :: t ∧ ∀ a ∈ x :: t, a ≤ t.foldl max x := by
  induction t generalizing x with
  | nil => simp
  | cons y t ih =>
    obtain ⟨hmem, hle⟩ := ih (max x y)
    have hfold : (y :: t).foldl max x = t.foldl max (max x y) := rfl
    constructor
    · rw [hfold]
      rcases List.mem_cons.mp hmem with h | h
      · rcases max_choice x y with h' | h' <;> rw [h, h']
        · exact List.mem_cons_self _ _
        · exact List.mem_cons_of_mem _ (List.mem_cons_self _ _)
      · exact List.mem_cons_of_mem _ (List.mem_cons_of_mem _ h)
    · intro a ha
      rw [hfold]
      rcases List.mem_cons.mp ha with h | h
      · subst h
        exact le_trans (le_max_left _ _) (hle _ (List.mem_cons_self _ _))
      · rcases List.mem_cons.mp h with h' | h'
        · subst h'
          exact le_trans (le_max_right _ _) (hle _ (List.mem_cons_self _ _))
        · exact hle _ (List.mem_cons_of_mem _ h')

theorem npMin_eq_some (x : ℚ) (t : List ℚ) : npMin (x :: t) = some (t.foldl min x) := rfl

theorem npMax_eq_some (x : ℚ) (t : List ℚ) : npMax (x :: t) = some (t.foldl max x) := rfl

/-! ### The per-chain statistics routine of `analyze_regional_mcmc.ipynb`

The notebook zips the key list `stats_ks` with the lambda list `stats` and
evaluates each statistic on the chain's sample list, inserting the results
into a fresh dictionary in that order. -/

/-- The keys `stats_ks` of `analyze_regional_mcmc.ipynb`. -/
def stats_ks : List String := ["min", "max", "median", "mean", "std", "iqr", "n_eff"]

/-- The lambda list `stats` of the notebook, in the same order as
`stats_ks`; the last entry is the external `mcmc.effective_n`. -/
def statFns (lib : ExternalLib) : List (List ℚ → Option ℚ) :=
  [npMin, npMax, npMedian, npMean, npStd lib.sqrt, npIqr, lib.n_eff]

/-- Evaluate a list of (key, statistic) pairs on the sample list `xs`,
building the dictionary entry by entry; any raising statistic aborts the
whole per-glacier computation (`none`). -/
def applyStats : List (String × (List ℚ → Option ℚ)) → List ℚ → Option (List (String × ℚ))
  | [], _ => some []
  | (s, f) :: rest, xs => do
      let v ← f xs
      let tl ← applyStats rest xs
      return (s, v) :: tl

/-- The inner loop `for i, s in enumerate(stats_ks): d[s] = stats[i](chain)`
for one chain of one variable. -/
def chainStats (lib : ExternalLib) (xs : List ℚ) : Option (List (String × ℚ)) :=
  applyStats (stats_ks.zip (statFns lib)) xs

theorem applyStats_keys (ps : List (String × (List ℚ → Option ℚ))) (xs : List ℚ)
    (l : List (String × ℚ)) (h : applyStats ps xs = some l) :
    l.map Prod.fst = ps.map Prod.fst := by
  induction ps generalizing l with
  | nil => simp [applyStats] at h; simp [h]
  | cons p rest ih =>
    obtain ⟨s, f⟩ := p
    simp only [applyStats, Option.bind_eq_bind, Option.bind_eq_some, Option.pure_def,
      Option.some.injEq] at h
    obtain ⟨v, _, tl, htl, hcons⟩ := h
    subst hcons
    simp [ih tl htl]

theorem lookup_eq_none_of_not_mem_keys (l : List (String × ℚ)) (s : String)
    (h : s ∉ l.map Prod.fst) : l.lookup s = none := by
  induction l with
  | nil => rfl
  | cons p rest ih =>
    simp only [List.map_cons, List.mem_cons, not_or] at h
    have hbe : (s == p.1) = false := by
      simp only [beq_eq_false_iff_ne, ne_eq]
      exact h.1
    simpa [List.lookup, hbe] using ih h.2

/-- On a nonempty chain whose effective sample size evaluates, the routine
produces exactly the seven keyed statistics, in order. -/
theorem chainStats_eq (lib : ExternalLib) (x : ℚ) (t : List ℚ) (e : ℚ)
    (hn : lib.n_eff (x :: t) = some e) :
    chainStats lib (x :: t) =
      some [("min", t.foldl min x), ("max", t.foldl max x),
            ("median", npMedianD (x :: t)), ("mean", meanD (x :: t)),
            ("std", lib.sqrt (npVarD (x :: t))),
            ("iqr", npPercentileD 75 (x :: t) - npPercentileD 25 (x :: t)),
            ("n_eff", e)] := by
  simp [chainStats, stats_ks, statFns, applyStats, npMin, npMax, npMedian, npMean,
    npStd, npIqr, hn]

/-! ### Variable-level statistics: three chains plus one Gelman-Rubin value -/

/-- The parsed `MCMC` entry of a calibration json file: variable name and
chain number to sample list; `none` models a missing key (`KeyError`). -/
def Prms : Type := String → ℕ → Option (List ℚ)

/-- The variable keys `ks` of `analyze_regional_mcmc.ipynb`. -/
def ks : List String := ["kp", "tbias", "ddfsnow", "ddfice", "mb_mwea"]

/-- `glac_stats[k]` for one variable: the per-chain statistic dictionaries
for `chain_0`, `chain_1`, `chain_2` (in that order) and the single
Gelman-Rubin value stored at the variable level. -/
structure VarStats where
  chain : List (List (String × ℚ))
  rhat : ℚ
  deriving DecidableEq

/-- `np.array([...])` over the three chain lists: a chains-by-samples 2D
array; numpy raises on ragged rows, so unequal chain lengths fail. -/
def stack3 (c0 c1 c2 : List ℚ) : Option (List (List ℚ)) :=
  if c0.length = c1.length ∧ c1.length = c2.length then some [c0, c1, c2] else none

/-- The body of the `for k in ks` loop: per-chain statistics for the three
chains, then one `az.rhat` over the stacked 2D array. -/
def glacVar (lib : ExternalLib) (prms : Prms) (k : String) : Option VarStats := do
  let c0 ← prms k 0
  let s0 ← chainStats lib c0
  let c1 ← prms k 1
  let s1 ← chainStats lib c1
  let c2 ← prms k 2
  let s2 ← chainStats lib c2
  let st ← stack3 c0 c1 c2
  let r ← lib.rhat st
  return ⟨[s0, s1, s2], r⟩

/-! ### Acceptance-rate rolling average -/

/-- Full-overlap slice of `np.convolve(a, v)` assuming
`v.length ≤ a.length`; element `i` is `Σ_j a[i+j] * v[M-1-j]`. -/
def convolveValidCore (a v : List ℚ) : List ℚ :=
  (List.range (a.length + 1 - v.length)).map
    (fun i => (((a.drop i).take v.length).zipWith (fun p q => p * q) v.reverse).sum)

/-- `np.convolve(a, v, mode='valid')`: numpy raises on an empty input and,
as documented, swaps the two arrays when `v` is longer than `a`, so the
result always has length `max - min + 1`. -/
def convolveValid (a v : List ℚ) : Option (List ℚ) :=
  if a.isEmpty || v.isEmpty then none
  else if v.length ≤ a.length then some (convolveValidCore a v)
  else some (convolveValidCore v a)

/-- The constant kernel `np.ones(100)/100`. -/
def kernel100 : List ℚ := List.replicate 100 (1 / 100)

/-- The notebook's 100-sample rolling average of an acceptance-rate chain:
`np.convolve(ar_chain, np.ones(100)/100, mode='valid')`. -/
def rollingAr (xs : List ℚ) : Option (List ℚ) := convolveValid xs kernel100

/-- Acceptance-rate statistics for one chain: only the first five entries
of `stats_ks` / `stats` (the notebook slices `stats_ks[:-2]`), applied to
the rolling average. -/
def arChainStats (lib : ExternalLib) (xs : List ℚ) : Option (List (String × ℚ)) := do
  let r ← rollingAr xs
  applyStats ((stats_ks.take 5).zip ((statFns lib).take 5)) r

/-- The `glac_stats['ar']` block: rolling-average statistics for the three
acceptance-rate chains, in order. -/
def glacAr (lib : ExternalLib) (prms : Prms) : Option (List (List (String × ℚ))) := do
  let a0 ← prms "ar" 0
  let s0 ← arChainStats lib a0
  let a1 ← prms "ar" 1
  let s1 ← arChainStats lib a1
  let a2 ← prms "ar" 2
  let s2 ← arChainStats lib a2
  return [s0, s1, s2]

/-! ### The per-file loop with its try/except -/

/-- One calibration file of the `sorted(glob.glob(...))` loop: the region
and fractional part parsed from its name, and the parsed `MCMC` dictionary
(`none` when opening or parsing the json raises). -/
structure CalibFile where
  reg : String
  frac : String
  load : Option Prms

/-- `glacno = reg + '.' + glacno[:5]`: the `mcmc_stats` key built from a
file name. -/
def keyOf (f : CalibFile) : String := f.reg ++ "." ++ f.frac.take 5

/-- One glacier's completed entry: the per-variable statistics in `ks`
order, the acceptance-rate block, and the RGI area. -/
structure GlacRecord where
  vars : List (String × VarStats)
  ar : List (List (String × ℚ))
  area : ℚ
  deriving DecidableEq

/-- The `for k in ks` loop collecting `glac_stats[k]` in order. -/
def varAssoc (lib : ExternalLib) (prms : Prms) : List String → Option (List (String × VarStats))
  | [] => some []
  | k :: rest => do
      let v ← glacVar lib prms k
      let tl ← varAssoc lib prms rest
      return (k, v) :: tl

/-- The whole `try` body for one file: load the json, compute all variable
statistics, the acceptance-rate block, and the glacier area from the RGI
table (`rgiArea`, `none` when the `glacno` lookup raises `IndexError`). -/
def processFile (lib : ExternalLib) (rgiArea : String → Option ℚ) (f : CalibFile) :
    Option GlacRecord := do
  let prms ← f.load
  let vs ← varAssoc lib prms ks
  let ar ← glacAr lib prms
  let area ← rgiArea (keyOf f)
  return ⟨vs, ar, area⟩

/-- One iteration of the file loop: on success store the entry under its
key (a plain dict assignment, overwriting), on any exception print and
leave `mcmc_stats` untouched. -/
def loopStep (lib : ExternalLib) (rgiArea : String → Option ℚ)
    (acc : String → Option GlacRecord) (f : CalibFile) : String → Option GlacRecord :=
  match processFile lib rgiArea f with
  | some g => Function.update acc (keyOf f) (some g)
  | none => acc

/-- The full loop over all calibration files, starting from the empty
`mcmc_stats = {}`. -/
def runLoop (lib : ExternalLib) (rgiArea : String → Option ℚ) (files : List CalibFile) :
    String → Option GlacRecord :=
  files.foldl (loopStep lib rgiArea) (fun _ => none)

/-! ### Inversion lemmas -/

theorem npMedian_cons (x : ℚ) (t : List ℚ) : npMedian (x :: t) = some (npMedianD (x :: t)) := by
  simp [npMedian]

theorem npMean_cons (x : ℚ) (t : List ℚ) : npMean (x :: t) = some (meanD (x :: t)) := by
  simp [npMean]

theorem npStd_cons (sq : ℚ → ℚ) (x : ℚ) (t : List ℚ) :
    npStd sq (x :: t) = some (sq (npVarD (x :: t))) := by
  simp [npStd]

theorem npIqr_cons (x : ℚ) (t : List ℚ) :
    npIqr (x :: t) = some (npPercentileD 75 (x :: t) - npPercentileD 25 (x :: t)) := by
  simp [npIqr]

theorem zip_stats_eq (lib : ExternalLib) :
    stats_ks.zip (statFns lib) =
      [("min", npMin), ("max", npMax), ("median", npMedian), ("mean", npMean),
       ("std", npStd lib.sqrt), ("iqr", npIqr), ("n_eff", lib.n_eff)] := rfl

/-- A successful `chainStats` forces a nonempty chain, a defined effective
sample size, and fully determines the stored dictionary. -/
theorem chainStats_inv (lib : ExternalLib) (c : List ℚ) (s : List (String × ℚ))
    (h : chainStats lib c = some s) :
    ∃ x t e, c = x :: t ∧ lib.n_eff (x :: t) = some e ∧
      s = [("min", t.foldl min x), ("max", t.foldl max x), ("median", npMedianD (x :: t)),
           ("mean", meanD (x :: t)), ("std", lib.sqrt (npVarD (x :: t))),
           ("iqr", npPercentileD 75 (x :: t) - npPercentileD 25 (x :: t)), ("n_eff", e)] := by
  rw [chainStats, zip_stats_eq] at h
  cases c with
  | nil => simp [applyStats, npMin] at h
  | cons x t =>
    cases hne : lib.n_eff (x :: t) with
    | none =>
      simp [applyStats, npMin, npMax, npMedian_cons, npMean_cons, npStd_cons, npIqr_cons,
        hne] at h
    | some e =>
      refine ⟨x, t, e, rfl, hne, ?_⟩
      simp only [applyStats, npMin, npMax, npMedian_cons, npMean_cons, npStd_cons, npIqr_cons,
        hne, Option.bind_eq_bind, Option.some_bind, Option.pure_def, Option.some.injEq] at h
      exact h.symm

theorem glacVar_inv (lib : ExternalLib) (prms : Prms) (k : String) (vs : VarStats)
    (h : glacVar lib prms k = some vs) :
    ∃ c0 s0 c1 s1 c2 s2 r,
      prms k 0 = some c0 ∧ chainStats lib c0 = some s0 ∧
      prms k 1 = some c1 ∧ chainStats lib c1 = some s1 ∧
      prms k 2 = some c2 ∧ chainStats lib c2 = some s2 ∧
      c0.length = c1.length ∧ c1.length = c2.length ∧
      lib.rhat [c0, c1, c2] = some r ∧ vs = ⟨[s0, s1, s2], r⟩ := by
  simp only [glacVar, Option.bind_eq_bind, Option.bind_eq_some, Option.pure_def,
    Option.some.injEq] at h
  obtain ⟨c0, hc0, s0, hs0, c1, hc1, s1, hs1, c2, hc2, s2, hs2, st, hst, r, hr, hvs⟩ := h
  rw [stack3] at hst
  by_cases hlen : c0.length = c1.length ∧ c1.length = c2.length
  · rw [if_pos hlen] at hst
    obtain rfl := Option.some.inj hst
    exact ⟨c0, s0, c1, s1, c2, s2, r, hc0, hs0, hc1, hs1, hc2, hs2, hlen.1, hlen.2, hr, hvs.symm⟩
  · rw [if_neg hlen] at hst
    exact absurd hst (by simp)

/-- C1.  For every successfully processed glacier, every variable in `ks`
and every chain `n < 3`, the routine stores exactly the seven statistics
`min, max, median, mean, std, iqr, n_eff` of that chain's sample list, in
that order: the stored `min`/`max` are the least/greatest sample, `median`
is `np.median` of the samples, `mean` is the arithmetic mean, `std` is the
square root of the population variance, `iqr` is the 75th minus the 25th
percentile, and `n_eff` is the external effective-sample-size value. -/
theorem C1_seven_stats (lib : ExternalLib) (prms : Prms) (k : String) (vs : VarStats)
    (_hk : k ∈ ks) (h : glacVar lib prms k = some vs) (n : ℕ) (hn : n < 3) :
    ∃ x t e, prms k n = some (x :: t) ∧ lib.n_eff (x :: t) = some e ∧
      vs.chain.get? n =
        some [("min", t.foldl min x), ("max", t.foldl max x), ("median", npMedianD (x :: t)),
              ("mean", meanD (x :: t)), ("std", lib.sqrt (npVarD (x :: t))),
              ("iqr", npPercentileD 75 (x :: t) - npPercentileD 25 (x :: t)), ("n_eff", e)] ∧
      t.foldl min x ∈ x :: t ∧ (∀ a ∈ x :: t, t.foldl min x ≤ a) ∧
      t.foldl max x ∈ x :: t ∧ (∀ a ∈ x :: t, a ≤ t.foldl max x) := by
  obtain ⟨c0, s0, c1, s1, c2, s2, r, hc0, hs0, hc1, hs1, hc2, hs2, _, _, _, hvs⟩ :=
    glacVar_inv lib prms k vs h
  subst hvs
  interval_cases n
  · obtain ⟨x, t, e, rfl, he, rfl⟩ := chainStats_inv lib c0 s0 hs0
    exact ⟨x, t, e, hc0, he, rfl, (foldl_min_spec x t).1, (foldl_min_spec x t).2,
      (foldl_max_spec x t).1, (foldl_max_spec x t).2⟩
  · obtain ⟨x, t, e, rfl, he, rfl⟩ := chainStats_inv lib c1 s1 hs1
    exact ⟨x, t, e, hc1, he, rfl, (foldl_min_spec x t).1, (foldl_min_spec x t).2,
      (foldl_max_spec x t).1, (foldl_max_spec x t).2⟩
  · obtain ⟨x, t, e, rfl, he, rfl⟩ := chainStats_inv lib c2 s2 hs2
    exact ⟨x, t, e, hc2, he, rfl, (foldl_min_spec x t).1, (foldl_min_spec x t).2,
      (foldl_max_spec x t).1, (foldl_max_spec x t).2⟩

/-- Concrete library instance for witnesses: effective sample size stubbed
by the mean, r-hat constantly 1, square root by the identity (the opaque
parameters may be anything). -/
def libW : ExternalLib := ⟨fun xs => npMean xs, fun _ => some 1, fun q => q⟩

/-- Concrete parsed calibration data for witnesses: every chain is the
one-sample list `[0]`. -/
def prmsW : Prms := fun _ _ => some [0]

/-- The chain dictionary produced on `[0]` under `libW`. -/
def chainW : List (String × ℚ) :=
  [("min", 0), ("max", 0), ("median", 0), ("mean", 0), ("std", 0), ("iqr", 0), ("n_eff", 0)]

/-- The variable-level record produced by `glacVar libW prmsW`. -/
def vsW : VarStats := ⟨[chainW, chainW, chainW], 1⟩

theorem chainStats_libW_zero : chainStats libW [0] = some chainW := by
  rw [chainStats, zip_stats_eq]
  have h1 : npMean [(0 : ℚ)] = some 0 := by simp [npMean, meanD]
  simp [applyStats, npMin, npMax, npMedian_cons, npMean_cons, npStd_cons, npIqr_cons, libW,
    h1, chainW, npMedianD, sortedQ, meanD, npVarD, npPercentileD, List.insertionSort,
    List.orderedInsert]

theorem libW_rhat (l : List (List ℚ)) : libW.rhat l = some 1 := rfl

theorem glacVar_libW (k : String) : glacVar libW prmsW k = some vsW := by
  simp [glacVar, prmsW, chainStats_libW_zero, stack3, libW_rhat, vsW]

theorem C1_witness :
    ∃ x t e, prmsW "kp" 0 = some (x :: t) ∧ libW.n_eff (x :: t) = some e ∧
      vsW.chain.get? 0 =
        some [("min", t.foldl min x), ("max", t.foldl max x), ("median", npMedianD (x :: t)),
              ("mean", meanD (x :: t)), ("std", libW.sqrt (npVarD (x :: t))),
              ("iqr", npPercentileD 75 (x :: t) - npPercentileD 25 (x :: t)), ("n_eff", e)] ∧
      t.foldl min x ∈ x :: t ∧ (∀ a ∈ x :: t, t.foldl min x ≤ a) ∧
      t.foldl max x ∈ x :: t ∧ (∀ a ∈ x :: t, a ≤ t.foldl max x) :=
  C1_seven_stats libW prmsW "kp" vsW (by decide) (glacVar_libW "kp") 0 (by decide)

/-- C2.  For every variable of a successfully processed glacier, exactly one
Gelman-Rubin value is computed, by `az.rhat` applied to the three equal-length
chains stacked into a single chains-by-samples 2D array, and it is stored at
the variable level; the three per-chain dictionaries carry exactly the keys
`stats_ks` and in particular no `rhat` key. -/
theorem C2_rhat_per_variable (lib : ExternalLib) (prms : Prms) (k : String) (vs : VarStats)
    (h : glacVar lib prms k = some vs) :
    ∃ c0 c1 c2 r, prms k 0 = some c0 ∧ prms k 1 = some c1 ∧ prms k 2 = some c2 ∧
      c0.length = c1.length ∧ c1.length = c2.length ∧
      lib.rhat [c0, c1, c2] = some r ∧ vs.rhat = r ∧ vs.chain.length = 3 ∧
      ∀ d ∈ vs.chain, d.map Prod.fst = stats_ks ∧ d.lookup "rhat" = none := by
  obtain ⟨c0, s0, c1, s1, c2, s2, r, hc0, hs0, hc1, hs1, hc2, hs2, h01, h12, hr, hvs⟩ :=
    glacVar_inv lib prms k vs h
  subst hvs
  refine ⟨c0, c1, c2, r, hc0, hc1, hc2, h01, h12, hr, rfl, rfl, ?_⟩
  intro d hd
  have hd' : d = s0 ∨ d = s1 ∨ d = s2 := by simpa using hd
  have hkeys : d.map Prod.fst = stats_ks := by
    rcases hd' with rfl | rfl | rfl
    · simpa [zip_stats_eq, stats_ks] using applyStats_keys _ _ _ hs0
    · simpa [zip_stats_eq, stats_ks] using applyStats_keys _ _ _ hs1
    · simpa [zip_stats_eq, stats_ks] using applyStats_keys _ _ _ hs2
  refine ⟨hkeys, lookup_eq_none_of_not_mem_keys d "rhat" ?_⟩
  rw [hkeys]
  decide

theorem C2_witness :
    ∃ c0 c1 c2 r, prmsW "kp" 0 = some c0 ∧ prmsW "kp" 1 = some c1 ∧ prmsW "kp" 2 = some c2 ∧
      c0.length = c1.length ∧ c1.length = c2.length ∧
      libW.rhat [c0, c1, c2] = some r ∧ vsW.rhat = r ∧ vsW.chain.length = 3 ∧
      ∀ d ∈ vsW.chain, d.map Prod.fst = stats_ks ∧ d.lookup "rhat" = none :=
  C2_rhat_per_variable libW prmsW "kp" vsW (glacVar_libW "kp")

/-! ### Rolling-average lemmas -/

theorem sum_zipWith_mul_replicate (w : List ℚ) (n : ℕ) (c : ℚ) (h : w.length ≤ n) :
    (w.zipWith (fun p q => p * q) (List.replicate n c)).sum = w.sum * c := by
  induction w generalizing n with
  | nil => simp
  | cons a w ih =>
    cases n with
    | zero => simp at h
    | succ m =>
      simp only [List.replicate_succ, List.zipWith_cons_cons, List.sum_cons]
      rw [ih m (by simpa using h)]
      ring

theorem convolveValidCore_length (a v : List ℚ) :
    (convolveValidCore a v).length = a.length + 1 - v.length := by
  simp [convolveValidCore]

theorem convolveValidCore_get (a v : List ℚ) (i : ℕ) (h : i < a.length + 1 - v.length) :
    (convolveValidCore a v).get? i =
      some ((((a.drop i).take v.length).zipWith (fun p q => p * q) v.reverse).sum) := by
  simp [convolveValidCore, List.get?_map, List.get?_range, h]

theorem kernel100_length : kernel100.length = 100 := by simp [kernel100]

theorem kernel100_reverse : kernel100.reverse = kernel100 := by simp [kernel100]

theorem rollingAr_of_ge (xs : List ℚ) (h : 100 ≤ xs.length) :
    rollingAr xs = some (convolveValidCore xs kernel100) := by
  have hne : xs.isEmpty = false := by
    cases xs with
    | nil => simp at h
    | cons y t => rfl
  have hk : kernel100.isEmpty = false := rfl
  have hlen : kernel100.length ≤ xs.length := by simpa [kernel100] using h
  simp [rollingAr, convolveValid, hne, hk, hlen]

theorem rollingAr_of_lt (xs : List ℚ) (hne : xs ≠ []) (h : xs.length < 100) :
    rollingAr xs = some (convolveValidCore kernel100 xs) := by
  have hE : xs.isEmpty = false := by
    cases xs with
    | nil => exact absurd rfl hne
    | cons y t => rfl
  have hlen : ¬ kernel100.length ≤ xs.length := by
    rw [kernel100_length]; omega
  have hKne : kernel100 ≠ [] := by simp [kernel100]
  simp [rollingAr, convolveValid, hE, hlen, hKne]

theorem applyStats5_eq (lib : ExternalLib) (y : ℚ) (t : List ℚ) :
    applyStats ((stats_ks.take 5).zip ((statFns lib).take 5)) (y :: t) =
      some [("min", t.foldl min y), ("max", t.foldl max y), ("median", npMedianD (y :: t)),
            ("mean", meanD (y :: t)), ("std", lib.sqrt (npVarD (y :: t)))] := by
  have hz : (stats_ks.take 5).zip ((statFns lib).take 5) =
      [("min", npMin), ("max", npMax), ("median", npMedian), ("mean", npMean),
       ("std", npStd lib.sqrt)] := rfl
  rw [hz]
  simp [applyStats, npMin, npMax, npMedian_cons, npMean_cons, npStd_cons]

/-- C4.  On an acceptance-rate chain of length `L ≥ 100` the rolling series
has length `L - 99`, its element `i` is the mean of input elements `i`
through `i + 99` (a window of exactly 100 samples, summed and divided by
100), and the stored acceptance-rate dictionary holds exactly the five
statistics `min, max, median, mean, std` of the rolling series, with
neither an `iqr` nor an `n_eff` key. -/
theorem C4_rolling_acceptance (lib : ExternalLib) (xs : List ℚ) (h100 : 100 ≤ xs.length) :
    ∃ r sts, rollingAr xs = some r ∧ r.length = xs.length - 99 ∧
      (∀ i, i < xs.length - 99 →
        ((xs.drop i).take 100).length = 100 ∧
        r.get? i = some (((xs.drop i).take 100).sum / 100)) ∧
      arChainStats lib xs = some sts ∧
      sts.map Prod.fst = ["min", "max", "median", "mean", "std"] ∧
      sts.lookup "iqr" = none ∧ sts.lookup "n_eff" = none ∧
      sts.lookup "median" = some (npMedianD r) ∧ sts.lookup "mean" = some (meanD r) ∧
      sts.lookup "std" = some (lib.sqrt (npVarD r)) ∧
      (∃ mn, sts.lookup "min" = some mn ∧ mn ∈ r ∧ ∀ a ∈ r, mn ≤ a) ∧
      (∃ mx, sts.lookup "max" = some mx ∧ mx ∈ r ∧ ∀ a ∈ r, a ≤ mx) := by
  have hroll := rollingAr_of_ge xs h100
  have hlen : (convolveValidCore xs kernel100).length = xs.length - 99 := by
    rw [convolveValidCore_length, kernel100_length]; omega
  have hwin : ∀ i, i < xs.length - 99 →
      ((xs.drop i).take 100).length = 100 ∧
      (convolveValidCore xs kernel100).get? i = some (((xs.drop i).take 100).sum / 100) := by
    intro i hi
    have hwl : ((xs.drop i).take 100).length = 100 := by
      rw [List.length_take, List.length_drop]; omega
    refine ⟨hwl, ?_⟩
    have hg := convolveValidCore_get xs kernel100 i (by rw [kernel100_length]; omega)
    rw [hg, kernel100_reverse, kernel100_length]
    have hs := sum_zipWith_mul_replicate ((xs.drop i).take 100) 100 (1 / 100) (by rw [hwl])
    rw [show kernel100 = List.replicate 100 ((1 : ℚ) / 100) from rfl, hs, mul_one_div]
  cases hr : convolveValidCore xs kernel100 with
  | nil => rw [hr] at hlen; simp at hlen; omega
  | cons y t =>
    have hsts : arChainStats lib xs = some
        [("min", t.foldl min y), ("max", t.foldl max y), ("median", npMedianD (y :: t)),
         ("mean", meanD (y :: t)), ("std", lib.sqrt (npVarD (y :: t)))] := by
      rw [arChainStats, hroll, hr]
      simpa using applyStats5_eq lib y t
    refine ⟨y :: t, _, by rw [hroll, hr], by rw [← hr, hlen], by rw [← hr]; exact hwin,
      hsts, by simp, rfl, rfl, rfl, rfl, rfl,
      ⟨t.foldl min y, rfl, (foldl_min_spec y t).1, (foldl_min_spec y t).2⟩,
      ⟨t.foldl max y, rfl, (foldl_max_spec y t).1, (foldl_max_spec y t).2⟩⟩

/-! ### Evaluation lemmas on constant-zero data, used by witnesses -/

theorem foldl_min_replicate (c : ℚ) (n : ℕ) : (List.replicate n c).foldl min c = c := by
  induction n with
  | zero => rfl
  | succ m ih => rw [List.replicate_succ, List.foldl_cons, min_self]; exact ih

theorem foldl_max_replicate (c : ℚ) (n : ℕ) : (List.replicate n c).foldl max c = c := by
  induction n with
  | zero => rfl
  | succ m ih => rw [List.replicate_succ, List.foldl_cons, max_self]; exact ih

theorem sortedQ_replicate (n : ℕ) (c : ℚ) :
    sortedQ (List.replicate n c) = List.replicate n c := by
  induction n with
  | zero => rfl
  | succ m ih =>
    rw [List.replicate_succ, sortedQ, List.insertionSort]
    rw [show List.insertionSort (fun a b => a ≤ b) (List.replicate m c) = List.replicate m c
      from ih]
    cases m with
    | zero => rfl
    | succ k => rw [List.replicate_succ, List.orderedInsert, if_pos (le_refl c)]

theorem getD_replicate (c d : ℚ) (n i : ℕ) (h : i < n) :
    (List.replicate n c).getD i d = c := by
  induction n generalizing i with
  | zero => omega
  | succ m ih =>
    cases i with
    | zero => rfl
    | succ j =>
      rw [List.replicate_succ, List.getD_cons_succ]
      exact ih j (by omega)

theorem meanD_replicate_zero (n : ℕ) : meanD (List.replicate n (0 : ℚ)) = 0 := by
  simp [meanD]

theorem npVarD_replicate_zero (n : ℕ) : npVarD (List.replicate n (0 : ℚ)) = 0 := by
  simp [npVarD, meanD_replicate_zero, List.map_replicate]

theorem npMedianD_replicate_zero (n : ℕ) (h : 0 < n) :
    npMedianD (List.replicate n (0 : ℚ)) = 0 := by
  rw [npMedianD, sortedQ_replicate, List.length_replicate]
  by_cases hp : n % 2 = 1
  · rw [if_pos hp, getD_replicate _ _ _ _ (by omega)]
  · rw [if_neg hp, getD_replicate _ _ _ _ (by omega), getD_replicate _ _ _ _ (by omega)]
    norm_num

theorem core_kernel_zero : convolveValidCore kernel100 [0] = List.replicate 100 (0 : ℚ) := by
  apply List.eq_replicate.mpr
  constructor
  · simp [convolveValidCore, kernel100]
  · intro b hb
    simp only [convolveValidCore, List.mem_map, List.mem_range] at hb
    obtain ⟨i, _, rfl⟩ := hb
    simp only [show ([0] : List ℚ).length = 1 from rfl, show ([0] : List ℚ).reverse = [0] from rfl]
    cases hw : (kernel100.drop i).take 1 with
    | nil => simp
    | cons c w =>
      have hl : (c :: w).length ≤ 1 := by
        rw [← hw, List.length_take]
        exact min_le_left _ _
      cases w with
      | cons d w2 => simp at hl
      | nil => simp

/-- The acceptance-rate dictionary produced from the one-sample chain `[0]`
under `libW`. -/
def arW : List (String × ℚ) :=
  [("min", 0), ("max", 0), ("median", 0), ("mean", 0), ("std", 0)]

theorem rollingAr_zero : rollingAr [0] = some (List.replicate 100 (0 : ℚ)) := by
  rw [rollingAr_of_lt [0] (by simp) (by simp), core_kernel_zero]

theorem libW_sqrt (q : ℚ) : libW.sqrt q = q := rfl

theorem arChainStats_libW_zero : arChainStats libW [0] = some arW := by
  have hrep : (0 : ℚ) :: List.replicate 99 0 = List.replicate 100 0 := rfl
  rw [arChainStats, rollingAr_zero]
  simp only [Option.bind_eq_bind, Option.some_bind]
  rw [← hrep, applyStats5_eq]
  rw [foldl_min_replicate, foldl_max_replicate, hrep, meanD_replicate_zero,
    npVarD_replicate_zero, npMedianD_replicate_zero 100 (by omega), libW_sqrt]
  rfl

theorem C4_witness :
    ∃ r sts, rollingAr (List.replicate 100 (0 : ℚ)) = some r ∧
      r.length = (List.replicate 100 (0 : ℚ)).length - 99 ∧
      (∀ i, i < (List.replicate 100 (0 : ℚ)).length - 99 →
        (((List.replicate 100 (0 : ℚ)).drop i).take 100).length = 100 ∧
        r.get? i = some ((((List.replicate 100 (0 : ℚ)).drop i).take 100).sum / 100)) ∧
      arChainStats libW (List.replicate 100 (0 : ℚ)) = some sts ∧
      sts.map Prod.fst = ["min", "max", "median", "mean", "std"] ∧
      sts.lookup "iqr" = none ∧ sts.lookup "n_eff" = none ∧
      sts.lookup "median" = some (npMedianD r) ∧ sts.lookup "mean" = some (meanD r) ∧
      sts.lookup "std" = some (libW.sqrt (npVarD r)) ∧
      (∃ mn, sts.lookup "min" = some mn ∧ mn ∈ r ∧ ∀ a ∈ r, mn ≤ a) ∧
      (∃ mx, sts.lookup "max" = some mx ∧ mx ∈ r ∧ ∀ a ∈ r, a ≤ mx) :=
  C4_rolling_acceptance libW (List.replicate 100 (0 : ℚ)) (by simp)

/-! ### C10: short acceptance-rate chains -/

/-- C10 counterexample.  A 50-sample acceptance-rate chain is shorter than
100 samples, yet its 100-sample rolling average is not an empty array:
`np.convolve` swaps its arguments when the kernel is the longer one, so the
result has length `100 - 50 + 1 = 51`. -/
theorem C10_counterexample :
    (List.replicate 50 (1 : ℚ)).length < 100 ∧
      rollingAr (List.replicate 50 (1 : ℚ)) ≠ some [] ∧
      (rollingAr (List.replicate 50 (1 : ℚ))).map List.length = some 51 := by
  have h : rollingAr (List.replicate 50 (1 : ℚ)) =
      some (convolveValidCore kernel100 (List.replicate 50 1)) :=
    rollingAr_of_lt _ (by simp) (by simp)
  have hlen : (rollingAr (List.replicate 50 (1 : ℚ))).map List.length = some 51 := by
    rw [h]
    simp [convolveValidCore_length, kernel100_length]
  refine ⟨by simp, ?_, hlen⟩
  intro hc
  rw [hc] at hlen
  simp at hlen

/-- C10 amended.  Only an empty acceptance-rate chain makes the rolling
average fail (`np.convolve` raises on an empty input), omitting the
glacier; a chain of any length `1 ≤ L < 100` yields a nonempty rolling
array of length `101 - L` (numpy swaps the arguments), so its five
statistics are computed and the glacier is not omitted on that account. -/
theorem C10_amended (lib : ExternalLib) (xs : List ℚ) :
    (xs = [] → arChainStats lib xs = none) ∧
    (xs ≠ [] → xs.length < 100 →
      ∃ r sts, rollingAr xs = some r ∧ r.length = 101 - xs.length ∧ r ≠ [] ∧
        arChainStats lib xs = some sts) := by
  constructor
  · rintro rfl
    rfl
  · intro hne hlt
    have h := rollingAr_of_lt xs hne hlt
    have hrl : (convolveValidCore kernel100 xs).length = 101 - xs.length := by
      rw [convolveValidCore_length, kernel100_length]
    have hpos : 0 < (convolveValidCore kernel100 xs).length := by
      rw [hrl]; omega
    cases hr : convolveValidCore kernel100 xs with
    | nil => rw [hr] at hpos; simp at hpos
    | cons y t =>
      have hsts : arChainStats lib xs = some
          [("min", t.foldl min y), ("max", t.foldl max y), ("median", npMedianD (y :: t)),
           ("mean", meanD (y :: t)), ("std", lib.sqrt (npVarD (y :: t)))] := by
        rw [arChainStats, h, hr]
        simp only [Option.bind_eq_bind, Option.some_bind]
        rw [applyStats5_eq]
      exact ⟨y :: t, _, by rw [h, hr], by rw [← hr, hrl], by simp, hsts⟩

theorem C10_amended_witness :
    ∃ r sts, rollingAr [(1 : ℚ)] = some r ∧ r.length = 101 - [(1 : ℚ)].length ∧ r ≠ [] ∧
      arChainStats libW [(1 : ℚ)] = some sts :=
  (C10_amended libW [(1 : ℚ)]).2 (by simp) (by simp)

/-! ### The try/except loop over calibration files -/

theorem foldl_loopStep_isSome (lib : ExternalLib) (A : String → Option ℚ)
    (files : List CalibFile) (acc : String → Option GlacRecord) (k : String) :
    ((files.foldl (loopStep lib A) acc) k).isSome ↔
      (acc k).isSome ∨ ∃ f ∈ files, keyOf f = k ∧ (processFile lib A f).isSome := by
  induction files generalizing acc with
  | nil => simp
  | cons f fs ih =>
    rw [List.foldl_cons, ih]
    cases hp : processFile lib A f with
    | none =>
      simp only [loopStep, hp]
      constructor
      · rintro (h | ⟨g, hg, hgk, hgs⟩)
        · exact Or.inl h
        · exact Or.inr ⟨g, List.mem_cons_of_mem _ hg, hgk, hgs⟩
      · rintro (h | ⟨g, hg, hgk, hgs⟩)
        · exact Or.inl h
        · rcases List.mem_cons.mp hg with rfl | hg'
          · rw [hp] at hgs; simp at hgs
          · exact Or.inr ⟨g, hg', hgk, hgs⟩
    | some g0 =>
      simp only [loopStep, hp]
      by_cases hk : k = keyOf f
      · subst hk
        rw [Function.update_same]
        constructor
        · intro _
          exact Or.inr ⟨f, List.mem_cons_self _ _, rfl, by rw [hp]; rfl⟩
        · intro _
          exact Or.inl rfl
      · rw [Function.update_apply, if_neg hk]
        constructor
        · rintro (h | ⟨g, hg, hgk, hgs⟩)
          · exact Or.inl h
          · exact Or.inr ⟨g, List.mem_cons_of_mem _ hg, hgk, hgs⟩
        · rintro (h | ⟨g, hg, hgk, hgs⟩)
          · exact Or.inl h
          · rcases List.mem_cons.mp hg with rfl | hg'
            · exact absurd hgk.symm hk
            · exact Or.inr ⟨g, hg', hgk, hgs⟩

/-! ### Concrete loop data for witnesses -/

/-- Constant RGI-area table for witnesses. -/
def areaW : String → Option ℚ := fun _ => some 5

/-- A calibration file that loads and processes successfully. -/
def fW : CalibFile := ⟨"1", "156457890", some prmsW⟩

/-- A calibration file whose json load raises. -/
def fBad : CalibFile := ⟨"1", "00001", none⟩

/-- A distinct file name agreeing with `fW` on the region and the first
five fractional characters. -/
def f1W : CalibFile := ⟨"1", "15645", none⟩

/-- The glacier record computed from `fW` under `libW` and `areaW`. -/
def recW : GlacRecord :=
  ⟨[("kp", vsW), ("tbias", vsW), ("ddfsnow", vsW), ("ddfice", vsW), ("mb_mwea", vsW)],
   [arW, arW, arW], 5⟩

theorem varAssoc_libW : varAssoc libW prmsW ks =
    some [("kp", vsW), ("tbias", vsW), ("ddfsnow", vsW), ("ddfice", vsW), ("mb_mwea", vsW)] := by
  simp [ks, varAssoc, glacVar_libW]

theorem glacAr_libW : glacAr libW prmsW = some [arW, arW, arW] := by
  simp [glacAr, prmsW, arChainStats_libW_zero]

theorem processFile_fW : processFile libW areaW fW = some recW := by
  simp [processFile, fW, varAssoc_libW, glacAr_libW, areaW, recW]

/-- C5.  Any exception inside the `try` body of the file loop is caught:
the failing file leaves the whole `mcmc_stats` dictionary unchanged, the
loop continues with the remaining files, and after the loop an entry for a
key is present exactly when some calibration file with that key completed
every step of its per-glacier computation. -/
theorem C5_try_except (lib : ExternalLib) (A : String → Option ℚ) (files : List CalibFile)
    (f : CalibFile) (acc : String → Option GlacRecord)
    (hfail : processFile lib A f = none) :
    loopStep lib A acc f = acc ∧
    (∀ k, (runLoop lib A files k).isSome ↔
      ∃ g ∈ files, keyOf g = k ∧ (processFile lib A g).isSome) := by
  refine ⟨by simp [loopStep, hfail], fun k => ?_⟩
  rw [runLoop, foldl_loopStep_isSome]
  simp

theorem C5_witness : loopStep libW areaW (fun _ => none) fBad = (fun _ => none) :=
  (C5_try_except libW areaW [fW] fBad (fun _ => none) rfl).1

/-- C9.  Every `mcmc_stats` key has the shape `reg ++ "." ++ frac.take 5`
for some processed file, so two files agreeing on the region and the first
five fractional characters share one key, and the later processed file
overwrites the earlier entry. -/
theorem C9_key_truncation (lib : ExternalLib) (A : String → Option ℚ)
    (files : List CalibFile) (f1 f2 : CalibFile) (g2 : GlacRecord)
    (hreg : f1.reg = f2.reg) (hfrac : f1.frac.take 5 = f2.frac.take 5)
    (h2 : processFile lib A f2 = some g2) :
    keyOf f1 = keyOf f2 ∧
    (∀ k, (runLoop lib A files k).isSome →
      ∃ f ∈ files, k = f.reg ++ "." ++ f.frac.take 5) ∧
    runLoop lib A (files ++ [f2]) (keyOf f1) = some g2 := by
  have hkey : keyOf f1 = keyOf f2 := by rw [keyOf, keyOf, hreg, hfrac]
  refine ⟨hkey, fun k hk => ?_, ?_⟩
  · rw [runLoop, foldl_loopStep_isSome] at hk
    rcases hk with h | ⟨f, hf, hfk, _⟩
    · simp at h
    · exact ⟨f, hf, by rw [← hfk]; rfl⟩
  · rw [hkey, runLoop, List.foldl_append]
    simp [loopStep, h2]

theorem C9_witness : runLoop libW areaW ([] ++ [fW]) (keyOf f1W) = some recW :=
  (C9_key_truncation libW areaW [] f1W fW recW rfl rfl processFile_fW).2.2

/-! ### Multi-GCM ensemble aggregation (regional glacier change notebook) -/

/-- Width of a stacked 2D array: the length of its first row. -/
def width (rows : List (List (Option ℚ))) : ℕ :=
  match rows with
  | [] => 0
  | r :: _ => r.length

/-- `np.vstack` succeeds only on a nonempty list of equal-length rows;
otherwise it raises and the notebook cell aborts. -/
def vstackable (rows : List (List (Option ℚ))) : Bool :=
  !rows.isEmpty && rows.all (fun r => r.length == width rows)

/-- Column `j` of the stacked array, one entry per GCM; an entry is `none`
where that GCM's series holds NaN. -/
def colJoin (rows : List (List (Option ℚ))) (j : ℕ) : List (Option ℚ) :=
  rows.map (fun r => (r.get? j).join)

/-- The non-NaN entries of a column. -/
def nanVals (col : List (Option ℚ)) : List ℚ := col.filterMap id

/-- `np.nanmean` over one column: the mean of the non-NaN entries, NaN
when there are none. -/
def nanmean (col : List (Option ℚ)) : Option ℚ := npMean (nanVals col)

/-- `np.nanstd` over one column. -/
def nanstd (sq : ℚ → ℚ) (col : List (Option ℚ)) : Option ℚ := npStd sq (nanVals col)

/-- `np.nanmin` over one column. -/
def nanmin (col : List (Option ℚ)) : Option ℚ := npMin (nanVals col)

/-- `np.nanmax` over one column. -/
def nanmax (col : List (Option ℚ)) : Option ℚ := npMax (nanVals col)

/-- An axis-0 reduction such as `np.nanmean(stacked, axis=0)`: one value
per year, each computed from that year's column. -/
def aggRows (stat : List (Option ℚ) → Option ℚ) (rows : List (List (Option ℚ))) :
    List (Option ℚ) :=
  (List.range (width rows)).map (fun j => stat (colJoin rows j))

/-- The `results[scenario]` assignments of the regional glacier change
notebook, in source order (mass stores `std_mass` before `mean_mass`). -/
def scenarioResults (sq : ℚ → ℚ) (runoff area mass : List (List (Option ℚ))) :
    Option (List (String × List (Option ℚ))) :=
  if vstackable runoff && vstackable area && vstackable mass then
    some [("mean_runoff", aggRows nanmean runoff), ("std_runoff", aggRows (nanstd sq) runoff),
          ("min_runoff", aggRows nanmin runoff), ("max_runoff", aggRows nanmax runoff),
          ("mean_area", aggRows nanmean area), ("std_area", aggRows (nanstd sq) area),
          ("min_area", aggRows nanmin area), ("max_area", aggRows nanmax area),
          ("std_mass", aggRows (nanstd sq) mass), ("mean_mass", aggRows nanmean mass),
          ("min_mass", aggRows nanmin mass), ("max_mass", aggRows nanmax mass)]
  else none

/-- The claim's reading of one stored band: the list under `key` has one
entry per year and its year-`j` entry is the NaN-ignoring statistic `stat`
of the `j`-th entries across the GCM axis. -/
def StoresAgg (res : List (String × List (Option ℚ))) (key : String)
    (stat : List (Option ℚ) → Option ℚ) (rows : List (List (Option ℚ))) (L : ℕ) : Prop :=
  ∃ l, res.lookup key = some l ∧ l.length = L ∧
    ∀ j, j < L → l.get? j = some (stat (colJoin rows j))

theorem aggRows_length (stat : List (Option ℚ) → Option ℚ) (rows : List (List (Option ℚ))) :
    (aggRows stat rows).length = width rows := by
  simp [aggRows]

theorem aggRows_get (stat : List (Option ℚ) → Option ℚ) (rows : List (List (Option ℚ)))
    (j : ℕ) (h : j < width rows) :
    (aggRows stat rows).get? j = some (stat (colJoin rows j)) := by
  simp [aggRows, List.get?_map, List.get?_range, h]

theorem storesAgg_of (res : List (String × List (Option ℚ))) (key : String)
    (stat : List (Option ℚ) → Option ℚ) (rows : List (List (Option ℚ))) (L : ℕ)
    (hw : width rows = L) (hlk : res.lookup key = some (aggRows stat rows)) :
    StoresAgg res key stat rows L := by
  refine ⟨aggRows stat rows, hlk, by rw [aggRows_length, hw], fun j hj => ?_⟩
  exact aggRows_get stat rows j (by rw [hw]; exact hj)

theorem vstackable_of (rows : List (List (Option ℚ))) (L : ℕ)
    (hne : rows ≠ []) (hl : ∀ r ∈ rows, r.length = L) :
    vstackable rows = true ∧ width rows = L := by
  have hw : width rows = L := by
    cases rows with
    | nil => exact absurd rfl hne
    | cons r rs => exact hl r (List.mem_cons_self _ _)
  refine ⟨?_, hw⟩
  rw [vstackable, Bool.and_eq_true, List.all_eq_true]
  constructor
  · cases rows with
    | nil => exact absurd rfl hne
    | cons r rs => rfl
  · intro r hr
    exact beq_iff_eq.mpr ((hl r hr).trans hw.symm)

/-- C3.  For every scenario, given one equal-length annual series per GCM
for runoff, area and mass, the notebook stores under
`mean_/std_/min_/max_<quantity>` four lists of the same length as one
series whose year-`j` entries are the NaN-ignoring mean, standard
deviation, minimum and maximum across the GCM axis. -/
theorem C3_ensemble_bands (sq : ℚ → ℚ) (runoff area mass : List (List (Option ℚ))) (L : ℕ)
    (hrn : runoff ≠ []) (hrl : ∀ r ∈ runoff, r.length = L)
    (han : area ≠ []) (hal : ∀ r ∈ area, r.length = L)
    (hmn : mass ≠ []) (hml : ∀ r ∈ mass, r.length = L) :
    ∃ res, scenarioResults sq runoff area mass = some res ∧
      StoresAgg res "mean_runoff" nanmean runoff L ∧
      StoresAgg res "std_runoff" (nanstd sq) runoff L ∧
      StoresAgg res "min_runoff" nanmin runoff L ∧
      StoresAgg res "max_runoff" nanmax runoff L ∧
      StoresAgg res "mean_area" nanmean area L ∧
      StoresAgg res "std_area" (nanstd sq) area L ∧
      StoresAgg res "min_area" nanmin area L ∧
      StoresAgg res "max_area" nanmax area L ∧
      StoresAgg res "mean_mass" nanmean mass L ∧
      StoresAgg res "std_mass" (nanstd sq) mass L ∧
      StoresAgg res "min_mass" nanmin mass L ∧
      StoresAgg res "max_mass" nanmax mass L := by
  obtain ⟨vr, wr⟩ := vstackable_of runoff L hrn hrl
  obtain ⟨va, wa⟩ := vstackable_of area L han hal
  obtain ⟨vm, wm⟩ := vstackable_of mass L hmn hml
  have hres : scenarioResults sq runoff area mass =
      some [("mean_runoff", aggRows nanmean runoff), ("std_runoff", aggRows (nanstd sq) runoff),
            ("min_runoff", aggRows nanmin runoff), ("max_runoff", aggRows nanmax runoff),
            ("mean_area", aggRows nanmean area), ("std_area", aggRows (nanstd sq) area),
            ("min_area", aggRows nanmin area), ("max_area", aggRows nanmax area),
            ("std_mass", aggRows (nanstd sq) mass), ("mean_mass", aggRows nanmean mass),
            ("min_mass", aggRows nanmin mass), ("max_mass", aggRows nanmax mass)] := by
    rw [scenarioResults, if_pos]
    rw [vr, va, vm]
    rfl
  refine ⟨_, hres,
    storesAgg_of _ _ _ _ _ wr rfl, storesAgg_of _ _ _ _ _ wr rfl,
    storesAgg_of _ _ _ _ _ wr rfl, storesAgg_of _ _ _ _ _ wr rfl,
    storesAgg_of _ _ _ _ _ wa rfl, storesAgg_of _ _ _ _ _ wa rfl,
    storesAgg_of _ _ _ _ _ wa rfl, storesAgg_of _ _ _ _ _ wa rfl,
    storesAgg_of _ _ _ _ _ wm rfl, storesAgg_of _ _ _ _ _ wm rfl,
    storesAgg_of _ _ _ _ _ wm rfl, storesAgg_of _ _ _ _ _ wm rfl⟩

/-- Two GCM series of length two, with one NaN entry, for the witness. -/
def rowsW : List (List (Option ℚ)) := [[some 1, none], [some 3, some 5]]

theorem C3_witness :
    ∃ res, scenarioResults (fun q => q) rowsW rowsW rowsW = some res ∧
      StoresAgg res "mean_runoff" nanmean rowsW 2 ∧
      StoresAgg res "std_runoff" (nanstd (fun q => q)) rowsW 2 ∧
      StoresAgg res "min_runoff" nanmin rowsW 2 ∧
      StoresAgg res "max_runoff" nanmax rowsW 2 ∧
      StoresAgg res "mean_area" nanmean rowsW 2 ∧
      StoresAgg res "std_area" (nanstd (fun q => q)) rowsW 2 ∧
      StoresAgg res "min_area" nanmin rowsW 2 ∧
      StoresAgg res "max_area" nanmax rowsW 2 ∧
      StoresAgg res "mean_mass" nanmean rowsW 2 ∧
      StoresAgg res "std_mass" (nanstd (fun q => q)) rowsW 2 ∧
      StoresAgg res "min_mass" nanmin rowsW 2 ∧
      StoresAgg res "max_mass" nanmax rowsW 2 :=
  C3_ensemble_bands (fun q => q) rowsW rowsW rowsW 2
    (by simp [rowsW]) (by simp [rowsW]) (by simp [rowsW]) (by simp [rowsW])
    (by simp [rowsW]) (by simp [rowsW])

/-! ### 20-year period averages -/

/-- The five 20-year periods of the regional glacier change notebook. -/
def periodsList : List (ℤ × ℤ) :=
  [(2001, 2020), (2021, 2040), (2041, 2060), (2061, 2080), (2081, 2100)]

/-- Python's `list.index`: the first index of `v`, `none` when absent
(`ValueError`). -/
def pyIndex : List ℤ → ℤ → Option ℕ
  | [], _ => none
  | y :: ys, v => if y = v then some 0 else (pyIndex ys v).map (fun i => i + 1)

/-- `runoff_avg` and `runoff_sig` for one period: `np.mean` and `np.std`
of the slice `mean_runoff[inds[0] : inds[1]+1]`. -/
def periodStats (sq : ℚ → ℚ) (years : List ℤ) (mr : List ℚ) (p : ℤ × ℤ) :
    Option (ℚ × ℚ) := do
  let i0 ← pyIndex years p.1
  let i1 ← pyIndex years p.2
  let a ← npMean ((mr.drop i0).take (i1 + 1 - i0))
  let s ← npStd sq ((mr.drop i0).take (i1 + 1 - i0))
  return (a, s)

/-- The year axis of the plots: consecutive integer years from `y0`. -/
def yearList (y0 : ℤ) : ℕ → List ℤ
  | 0 => []
  | n + 1 => y0 :: yearList (y0 + 1) n

theorem pyIndex_yearList (y0 : ℤ) (n d : ℕ) (h : d < n) :
    pyIndex (yearList y0 n) (y0 + d) = some d := by
  induction n generalizing y0 d with
  | zero => omega
  | succ m ih =>
    cases d with
    | zero => simp [yearList, pyIndex]
    | succ j =>
      rw [yearList, pyIndex, if_neg (by omega)]
      rw [show y0 + ((j + 1 : ℕ) : ℤ) = (y0 + 1) + (j : ℤ) by push_cast; ring]
      rw [ih (y0 + 1) j (by omega)]
      rfl

/-- C6.  For every scenario and each of the five 20-year periods, when both
endpoint years occur in the (consecutive) year list and the multi-GCM mean
runoff series runs parallel to it, the reported period average is the
arithmetic mean and the reported spread is the (population) standard
deviation of the mean-runoff values from the index of the period's first
year through the index of its last year inclusive, a slice of exactly 20
values. -/
theorem C6_period_averages (sq : ℚ → ℚ) (y0 : ℤ) (n : ℕ) (mr : List ℚ) (p : ℤ × ℤ)
    (hp : p ∈ periodsList) (h1 : y0 ≤ p.1) (h2 : p.2 < y0 + n) (hm : mr.length = n) :
    ∃ i0 i1, pyIndex (yearList y0 n) p.1 = some i0 ∧
      pyIndex (yearList y0 n) p.2 = some i1 ∧
      ((mr.drop i0).take (i1 + 1 - i0)).length = 20 ∧
      periodStats sq (yearList y0 n) mr p =
        some (meanD ((mr.drop i0).take (i1 + 1 - i0)),
              sq (npVarD ((mr.drop i0).take (i1 + 1 - i0)))) := by
  have hab : p.2 = p.1 + 19 := by
    simp only [periodsList, List.mem_cons, List.not_mem_nil, or_false] at hp
    rcases hp with rfl | rfl | rfl | rfl | rfl <;> norm_num
  have hd0 : p.1 = y0 + ((p.1 - y0).toNat : ℤ) := by omega
  have hd1 : p.2 = y0 + ((p.2 - y0).toNat : ℤ) := by omega
  have hi0 : pyIndex (yearList y0 n) p.1 = some (p.1 - y0).toNat := by
    have hgen := pyIndex_yearList y0 n (p.1 - y0).toNat (by omega)
    rwa [← hd0] at hgen
  have hi1 : pyIndex (yearList y0 n) p.2 = some (p.2 - y0).toNat := by
    have hgen := pyIndex_yearList y0 n (p.2 - y0).toNat (by omega)
    rwa [← hd1] at hgen
  have hlen : ((mr.drop (p.1 - y0).toNat).take ((p.2 - y0).toNat + 1 - (p.1 - y0).toNat)).length
      = 20 := by
    rw [List.length_take, List.length_drop, hm]; omega
  have hsne : (mr.drop (p.1 - y0).toNat).take ((p.2 - y0).toNat + 1 - (p.1 - y0).toNat) ≠ [] := by
    intro hc
    rw [hc] at hlen
    simp at hlen
  refine ⟨(p.1 - y0).toNat, (p.2 - y0).toNat, hi0, hi1, hlen, ?_⟩
  rw [periodStats]
  simp only [hi0, hi1, Option.bind_eq_bind, Option.some_bind]
  rw [npMean, if_neg hsne, npStd, if_neg hsne]
  simp only [Option.some_bind]
  rfl

theorem C6_witness :
    ∃ i0 i1, pyIndex (yearList 2000 101) (2001, (2020 : ℤ)).1 = some i0 ∧
      pyIndex (yearList 2000 101) (2001, (2020 : ℤ)).2 = some i1 ∧
      (((List.replicate 101 (0 : ℚ)).drop i0).take (i1 + 1 - i0)).length = 20 ∧
      periodStats (fun q => q) (yearList 2000 101) (List.replicate 101 0) (2001, 2020) =
        some (meanD (((List.replicate 101 (0 : ℚ)).drop i0).take (i1 + 1 - i0)),
              (fun q : ℚ => q) (npVarD (((List.replicate 101 (0 : ℚ)).drop i0).take (i1 + 1 - i0)))) :=
  C6_period_averages (fun q => q) 2000 101 (List.replicate 101 0) (2001, 2020)
    (by simp [periodsList]) (by norm_num) (by norm_num) (by simp)

/-! ### Monthly-to-annual resampling -/

/-- `ds.resample(time='YE').sum('time')` on a contiguous monthly series:
month `m0 + i` belongs to calendar year `(m0 + i) / 12`, the year bins run
from the first month's year to the last month's year, and each bin sums a
contiguous slice of the monthly values. -/
def resampleYearSum (m0 : ℕ) (vals : List ℚ) : List (ℕ × ℚ) :=
  if vals.isEmpty then []
  else
    (List.range ((m0 + vals.length - 1) / 12 - m0 / 12 + 1)).map (fun t =>
      (m0 / 12 + t,
       ((vals.drop (12 * (m0 / 12 + t) - m0)).take
         (12 * (m0 / 12 + t + 1) - m0 - (12 * (m0 / 12 + t) - m0))).sum))

/-- The claim's reading of one annual value: the sum of exactly the monthly
values lying in calendar year `y`, walking the series with its absolute
month counter. -/
def selectYearSum : ℕ → List ℚ → ℕ → ℚ
  | _, [], _ => 0
  | m0, v :: vs, y => (if m0 / 12 = y then v else 0) + selectYearSum (m0 + 1) vs y

theorem selectYearSum_eq_slice (vals : List ℚ) (m0 y : ℕ) :
    selectYearSum m0 vals y =
      ((vals.drop (12 * y - m0)).take (12 * (y + 1) - m0 - (12 * y - m0))).sum := by
  induction vals generalizing m0 with
  | nil => simp [selectYearSum]
  | cons v vs ih =>
    rw [selectYearSum, ih (m0 + 1)]
    by_cases hy : m0 / 12 = y
    · have hA : 12 * (y + 1) - m0 - (12 * y - m0) =
          (12 * (y + 1) - (m0 + 1) - (12 * y - (m0 + 1))) + 1 := by omega
      have hL : 12 * y - m0 = 0 := by omega
      have hL2 : 12 * y - (m0 + 1) = 0 := by omega
      rw [if_pos hy, hA, hL, hL2]
      simp only [List.drop_zero, List.take_succ_cons, List.sum_cons]
    · rcases Nat.lt_or_ge m0 (12 * y) with hlt | hge
      · have hJ : 12 * y - m0 = (12 * y - (m0 + 1)) + 1 := by omega
        have hA : 12 * (y + 1) - m0 - ((12 * y - (m0 + 1)) + 1) =
            12 * (y + 1) - (m0 + 1) - (12 * y - (m0 + 1)) := by omega
        rw [if_neg hy, hJ, hA, List.drop_succ_cons, zero_add]
      · have h1 : 12 * (y + 1) - m0 - (12 * y - m0) = 0 := by omega
        have h2 : 12 * (y + 1) - (m0 + 1) - (12 * y - (m0 + 1)) = 0 := by omega
        rw [if_neg hy, h1, h2]
        simp

/-- C8.  On a nonempty contiguous monthly runoff series the year-end
resample-and-sum produces one entry per calendar year spanned by the data,
keyed consecutively from the first month's year to the last month's year,
and each annual value is the sum of exactly that year's monthly values. -/
theorem C8_resample_annual (m0 : ℕ) (vals : List ℚ) (h : vals ≠ []) :
    (resampleYearSum m0 vals).map Prod.fst =
      (List.range ((m0 + vals.length - 1) / 12 - m0 / 12 + 1)).map (fun t => m0 / 12 + t) ∧
    (resampleYearSum m0 vals).length = (m0 + vals.length - 1) / 12 - m0 / 12 + 1 ∧
    ∀ q ∈ resampleYearSum m0 vals, q.2 = selectYearSum m0 vals q.1 := by
  have hE : vals.isEmpty = false := by
    cases vals with
    | nil => exact absurd rfl h
    | cons v vs => rfl
  refine ⟨?_, ?_, ?_⟩
  · rw [resampleYearSum, if_neg (by simp [hE])]
    simp [List.map_map]
  · rw [resampleYearSum, if_neg (by simp [hE])]
    simp
  · intro q hq
    rw [resampleYearSum, if_neg (by simp [hE])] at hq
    simp only [List.mem_map, List.mem_range] at hq
    obtain ⟨t, _, rfl⟩ := hq
    exact (selectYearSum_eq_slice vals m0 (m0 / 12 + t)).symm

theorem C8_witness :
    (resampleYearSum 6 (List.replicate 18 0)).map Prod.fst =
      (List.range ((6 + (List.replicate 18 (0 : ℚ)).length - 1) / 12 - 6 / 12 + 1)).map
        (fun t => 6 / 12 + t) ∧
    (resampleYearSum 6 (List.replicate 18 0)).length =
      (6 + (List.replicate 18 (0 : ℚ)).length - 1) / 12 - 6 / 12 + 1 ∧
    ∀ q ∈ resampleYearSum 6 (List.replicate 18 0),
      q.2 = selectYearSum 6 (List.replicate 18 0) q.1 :=
  C8_resample_annual 6 (List.replicate 18 0) (by simp)

end PyGEMNB
